import Mathlib

/-!
Verification of the tab-system core of this repository: the Tab Store
(`src/src/stores/tabs/index.ts`), the Cache Store
(`src/src/stores/keepAlive/index.ts`, `src/src/contexts/keepAliveContext.tsx`),
the Sync Controller (`useSyncTabsWithRouter`) and the Render Surface
(`src/src/components/KeepAliveOutlet.tsx`), embedded shallowly in Lean.

JavaScript peculiarities are modelled explicitly:
* `x || d` treats the empty string as falsy (`jsOr`);
* `Array.prototype.findIndex` returns `-1` when nothing matches
  (`jsFindIndex`, an `Int`);
* indexing an array out of range yields `undefined`; reading `.id` from it
  throws.  Operations that can hit such a read return `Option` and yield
  `none` on the throwing path;
* a JS object literal `{...m, [k]: v}` keeps the position of an existing
  key and appends a new one (`setKey`), `delete m[k]` removes the key
  (`delKey`).  Plain string-keyed objects are association lists.
-/

namespace TabSystem

/-- JS `v || d` for an optional string: `undefined`/missing and the empty
string are falsy. -/
def jsOr (v : Option String) (d : String) : String :=
  match v with
  | some s => if s = "" then d else s
  | none => d

/-- JS array indexing `l[i]` with a possibly negative index: out of range
gives `undefined`, modelled as `none`. -/
def jsIndex (l : List α) (i : Int) : Option α :=
  if 0 ≤ i then l.get? i.toNat else none

/-- Index of the first match, if any. -/
def findIdxOpt : List α → (α → Bool) → Option Nat
  | [], _ => none
  | x :: xs, p => if p x then some 0 else (findIdxOpt xs p).map (· + 1)

/-- JS `Array.prototype.findIndex`: index of the first match, `-1` if none. -/
def jsFindIndex (l : List α) (p : α → Bool) : Int :=
  match findIdxOpt l p with
  | some i => (i : Int)
  | none => -1

/-- String-keyed JS object, in key insertion order. -/
abbrev StrMap := List (String × String)

/-- JS property read `m[k]` (as an `Option`). -/
def getKey (m : StrMap) (k : String) : Option String :=
  (m.find? (fun p => p.1 == k)).map (·.2)

/-- JS `{...m, [k]: v}`: replace in place if `k` exists, else append. -/
def setKey (m : StrMap) (k v : String) : StrMap :=
  if m.any (fun p => p.1 == k) then
    m.map (fun p => if p.1 == k then (k, v) else p)
  else m ++ [(k, v)]

/-- JS `delete m[k]`. -/
def delKey (m : StrMap) (k : String) : StrMap :=
  m.filter (fun p => p.1 != k)

/-- Replace the element at position `i` (used for
`updatedTabs[existingTabIndex] = ...`). -/
def listUpdate : List α → Nat → (α → α) → List α
  | [], _, _ => []
  | x :: xs, 0, f => f x :: xs
  | x :: xs, n + 1, f => x :: listUpdate xs n f

/-- `Tab` from `src/src/stores/tabs/index.ts`. -/
structure Tab where
  id : String
  title : String
  path : String
  lastPath : String
  closable : Bool
deriving Repr, DecidableEq

/-- The state fields of `TabsStore` from `src/src/stores/tabs/index.ts`. -/
structure TabsState where
  tabs : List Tab
  activeId : Option String
  lastPathMap : StrMap
  pendingNavigation : Option String
deriving Repr, DecidableEq

/-- The initial store state (`tabs: [], activeId: null, lastPathMap: {},
pendingNavigation: null`). -/
def initialState : TabsState :=
  { tabs := [], activeId := none, lastPathMap := [], pendingNavigation := none }

/-- `openByRoute` (lines 46-89): update `path`/`lastPath` of an existing tab
in place, or append a new tab; either way set it active and write
`lastPathMap[routeId] = path`. -/
def openByRoute (s : TabsState) (routeId title path : String)
    (closable : Bool) : TabsState :=
  match findIdxOpt s.tabs (fun tab => tab.id == routeId) with
  | some existingTabIndex =>
      { s with
        tabs := listUpdate s.tabs existingTabIndex
          (fun tab => { tab with path := path, lastPath := path }),
        activeId := some routeId,
        lastPathMap := setKey s.lastPathMap routeId path }
  | none =>
      { s with
        tabs := s.tabs ++ [{ id := routeId, title := title, path := path,
                             lastPath := path, closable := closable }],
        activeId := some routeId,
        lastPathMap := setKey s.lastPathMap routeId path }

/-- `activate` (lines 91-97): set `activeId` only if the tab exists. -/
def activate (s : TabsState) (routeId : String) : TabsState :=
  match s.tabs.find? (fun t => t.id == routeId) with
  | some _ => { s with activeId := some routeId }
  | none => s

/-- `close` (lines 99-137), tab-store part.  When the closed tab was active
the replacement is the tab now at the closed slot (the original right
neighbor), else the last remaining tab.  `tabs[closedTabIndex].id` with
`closedTabIndex = -1` (active id closed while absent from the list) throws
in JS, modelled as `none`. -/
def close (s : TabsState) (routeId : String) : Option TabsState :=
  let tabs := s.tabs.filter (fun tab => tab.id != routeId)
  let newActiveId? : Option (Option String) :=
    if s.activeId = some routeId then
      if 0 < tabs.length then
        let closedTabIndex := jsFindIndex s.tabs (fun tab => tab.id == routeId)
        if closedTabIndex < (tabs.length : Int) then
          match jsIndex tabs closedTabIndex with
          | some t => some (some t.id)
          | none => none
        else if 0 < tabs.length then
          match jsIndex tabs ((tabs.length : Int) - 1) with
          | some t => some (some t.id)
          | none => none
        else some none
      else some none
    else some s.activeId
  match newActiveId? with
  | none => none
  | some a =>
      some { s with tabs := tabs, activeId := a,
                    lastPathMap := delKey s.lastPathMap routeId }

/-- `closeAll` (lines 139-148), tab-store part. -/
def closeAll (s : TabsState) : TabsState :=
  { s with tabs := [], activeId := none, lastPathMap := [] }

/-- `closeOthers` (lines 150-175), tab-store part.  The surviving
`lastPathMap` entry is kept only when truthy (`if (state.lastPathMap[routeId])`). -/
def closeOthers (s : TabsState) (routeId : String) : TabsState :=
  match s.tabs.find? (fun tab => tab.id == routeId) with
  | none => s
  | some targetTab =>
      let newLastPathMap : StrMap :=
        match getKey s.lastPathMap routeId with
        | some v => if v = "" then [] else [(routeId, v)]
        | none => []
      { s with tabs := [targetTab], activeId := some routeId,
               lastPathMap := newLastPathMap }

/-- `rename` (lines 177-183). -/
def rename (s : TabsState) (routeId title : String) : TabsState :=
  { s with tabs := s.tabs.map fun tab =>
      if tab.id == routeId then { tab with title := title } else tab }

/-- `updateTabPath` (lines 185-195).  Note that the `lastPathMap` write is
unconditional, even when no tab matches. -/
def updateTabPath (s : TabsState) (routeId path : String) : TabsState :=
  { s with
    tabs := s.tabs.map (fun tab =>
      if tab.id == routeId then { tab with path := path, lastPath := path } else tab),
    lastPathMap := setKey s.lastPathMap routeId path }

/-- The `nextTab` selection of `handleRouteRemoved` (lines 212-225): prefer
the left neighbor, else the tab that slid into the closed slot, else the
first remaining tab. -/
def nextTabChoice (tabs remainingTabs : List Tab) (routeId : String) : Option Tab :=
  let closedTabIndex := jsFindIndex tabs (fun tab => tab.id == routeId)
  if 0 < closedTabIndex then jsIndex remainingTabs (closedTabIndex - 1)
  else if closedTabIndex < (remainingTabs.length : Int) then
    jsIndex remainingTabs closedTabIndex
  else jsIndex remainingTabs 0

/-- `handleRouteRemoved` (lines 197-284): returns the updated state and the
boolean result (`true` = navigation needed).  The non-navigation branches
leave `pendingNavigation` untouched; the keep-alive cache is not touched at
all (source comment, line 283). -/
def handleRouteRemoved (s : TabsState) (routeId : String) :
    Option (TabsState × Bool) :=
  let hasTab := s.tabs.any (fun tab => tab.id == routeId)
  if hasTab then
    let remainingTabs := s.tabs.filter (fun tab => tab.id != routeId)
    if s.activeId = some routeId then
      if 0 < remainingTabs.length then
        match nextTabChoice s.tabs remainingTabs routeId with
        | none => none
        | some nextTab =>
            let targetPath := jsOr (getKey s.lastPathMap nextTab.id) nextTab.path
            some ({ tabs := remainingTabs, activeId := some nextTab.id,
                    lastPathMap := delKey s.lastPathMap routeId,
                    pendingNavigation := some targetPath }, true)
      else
        some ({ tabs := [], activeId := none,
                lastPathMap := delKey s.lastPathMap routeId,
                pendingNavigation := some "/" }, true)
    else
      some ({ tabs := remainingTabs, activeId := s.activeId,
              lastPathMap := delKey s.lastPathMap routeId,
              pendingNavigation := s.pendingNavigation }, false)
  else some (s, false)

/-- `setPendingNavigation` (lines 286-288). -/
def setPendingNavigation (s : TabsState) (path : Option String) : TabsState :=
  { s with pendingNavigation := path }

/-- `reorderTabs` (lines 290-301): `splice(fromIndex, 1)` then
`splice(toIndex, 0, draggedTab)`.  An out-of-range `fromIndex` would splice
`undefined` back into the array (a corrupt list), modelled as `none`;
`splice` clamps an insertion index past the end, hence the `min`. -/
def listInsertAt : List α → Nat → α → List α
  | xs, 0, a => a :: xs
  | [], _ + 1, a => [a]
  | x :: xs, n + 1, a => x :: listInsertAt xs n a

def reorderTabs (s : TabsState) (fromIndex toIndex : Nat) : Option TabsState :=
  match s.tabs.get? fromIndex with
  | none => none
  | some draggedTab =>
      let removed := s.tabs.eraseIdx fromIndex
      some { s with tabs := listInsertAt removed (min toIndex removed.length) draggedTab }

/-- `getActiveTab` (lines 304-307): `tabs.find(t => t.id === activeId)`;
comparison with `null` is always false. -/
def getActiveTab (s : TabsState) : Option Tab :=
  match s.activeId with
  | none => none
  | some a => s.tabs.find? (fun tab => tab.id == a)

/-- `getTabById` (lines 309-312). -/
def getTabById (s : TabsState) (routeId : String) : Option Tab :=
  s.tabs.find? (fun tab => tab.id == routeId)

/-! ### The Cache Store (`src/src/stores/keepAlive/index.ts`)

Rendered subtrees are opaque values of a type parameter `α`; the cache is a
string-keyed JS object in key insertion order. -/

/-- `get` of the keep-alive store: `cache[routeId] || null` (lines 35-38),
as an `Option`. -/
def kaGet (cache : List (String × α)) (routeId : String) : Option α :=
  (cache.find? (fun p => p.1 == routeId)).map (·.2)

/-- `has` (lines 30-33): `routeId in cache`. -/
def kaHas (cache : List (String × α)) (routeId : String) : Bool :=
  cache.any (fun p => p.1 == routeId)

/-- `set` (lines 21-28): `{...cache, [routeId]: element}`. -/
def kaSet (cache : List (String × α)) (routeId : String) (element : α) :
    List (String × α) :=
  if cache.any (fun p => p.1 == routeId) then
    cache.map (fun p => if p.1 == routeId then (routeId, element) else p)
  else cache ++ [(routeId, element)]

/-- `remove` (lines 40-46): `delete newCache[routeId]`. -/
def kaRemove (cache : List (String × α)) (routeId : String) : List (String × α) :=
  cache.filter (fun p => p.1 != routeId)

/-- `close` together with its keep-alive side effect (line 136:
`useKeepAliveStore.getState().remove(routeId)`, reached only when the state
update did not throw). -/
def closeFull (s : TabsState) (cache : List (String × α)) (routeId : String) :
    Option (TabsState × List (String × α)) :=
  (close s routeId).map (fun s' => (s', kaRemove cache routeId))

/-- `handleRouteRemoved` paired with the cache store: the function never
touches the keep-alive cache (source comment, line 283). -/
def handleRouteRemovedFull (s : TabsState) (cache : List (String × α))
    (routeId : String) : Option ((TabsState × Bool) × List (String × α)) :=
  (handleRouteRemoved s routeId).map (fun res => (res, cache))

/-! ### Concrete scenario states -/

/-- Tabs `[home, dashboard, users]` with active = `dashboard`, built through
the store operations (as in the spec's §8 scenario). -/
def tabsHDU : TabsState :=
  activate
    (openByRoute
      (openByRoute (openByRoute initialState "home" "Home" "/" true)
        "dashboard" "Dashboard" "/dashboard" true)
      "users" "Users" "/users" true)
    "dashboard"

/-- A single open tab `home`, active. -/
def tabsH : TabsState := openByRoute initialState "home" "Home" "/home" true

/-- The Tab Store state reachable by `openByRoute(home)` then
`updateTabPath("x", "/x")`: because of the unconditional `lastPathMap`
write, `lastPathMap` holds an entry for `"x"` although no tab `"x"` exists. -/
def tabsStrayX : TabsState := updateTabPath tabsH "x" "/x"

/-! ### Operation alphabet and reachable states of the Tab Store -/

/-- One call to a Tab Store operation. -/
inductive TabOp where
  | openByRoute (routeId title path : String) (closable : Bool)
  | activate (routeId : String)
  | close (routeId : String)
  | closeAll
  | closeOthers (routeId : String)
  | rename (routeId title : String)
  | updateTabPath (routeId path : String)
  | handleRouteRemoved (routeId : String)
  | reorderTabs (fromIndex toIndex : Nat)

/-- Apply one operation; `none` models a thrown exception. -/
def applyOp (op : TabOp) (s : TabsState) : Option TabsState :=
  match op with
  | .openByRoute r t p c => some (openByRoute s r t p c)
  | .activate r => some (activate s r)
  | .close r => close s r
  | .closeAll => some (closeAll s)
  | .closeOthers r => some (closeOthers s r)
  | .rename r t => some (rename s r t)
  | .updateTabPath r p => some (updateTabPath s r p)
  | .handleRouteRemoved r => (handleRouteRemoved s r).map Prod.fst
  | .reorderTabs f t => reorderTabs s f t

/-- Side condition for an operation: drag-and-drop reordering only ever
uses indices of existing tabs. -/
def opInRange (op : TabOp) (s : TabsState) : Prop :=
  match op with
  | .reorderTabs f t => f < s.tabs.length ∧ t < s.tabs.length
  | _ => True

/-- States reachable from the initial store state by Tab Store operations
(with in-range reorder indices). -/
inductive Reachable : TabsState → Prop where
  | init : Reachable initialState
  | step {s s' : TabsState} {op : TabOp} : Reachable s → opInRange op s →
      applyOp op s = some s' → Reachable s'

/-- The `activeId` part of the data-model invariant: `activeId` is null or
the id of some tab currently in the list. -/
def activeIdOk (s : TabsState) : Bool :=
  match s.activeId with
  | none => true
  | some a => s.tabs.any (fun tab => tab.id == a)

/-- Arguments of one `openByRoute` call. -/
structure OpenArgs where
  routeId : String
  title : String
  path : String
  closable : Bool

/-- A sequence of `openByRoute` calls. -/
def openSeq (calls : List OpenArgs) (s : TabsState) : TabsState :=
  calls.foldl (fun st c => openByRoute st c.routeId c.title c.path c.closable) s

/-! ### Route tables -/

namespace RouteStore

/-- `RouteConfig` from `src/src/stores/route/index.ts` (the table used by
`useSyncTabsWithRouter`); the `component`/`meta` fields are opaque
renderables the core never inspects and are omitted. -/
structure RouteConfig where
  id : String
  path : String
  title : String
deriving Repr, DecidableEq

end RouteStore

namespace RoutesStore

/-- `RouteConfig` from `src/src/stores/routes/index.ts` (the table used by
`KeepAliveOutlet`): `title` and `keepAlive` are optional fields; opaque
renderable fields are omitted. -/
structure RouteConfig where
  id : String
  path : String
  title : Option String
  keepAlive : Option Bool
deriving Repr, DecidableEq

end RoutesStore

/-! ### Sync Controller (`useSyncTabsWithRouter`, the `pendingNavigation`
variant of `src/unnamed/part_005`, lines 131-232) -/

/-- The mutable `syncStateRef` of the hook. -/
structure SyncRefs where
  isNavigating : Bool
  lastLocationKey : String
  lastActiveId : String
deriving Repr, DecidableEq

/-- The inputs one invocation of the hook reads: the router location, the
matched route for `location.pathname`, and the Tab Store state. -/
structure SyncInput where
  pathname : String
  search : String
  locationKey : Option String
  matched : Option RouteStore.RouteConfig
  tabsState : TabsState
deriving Repr, DecidableEq

/-- Rule A (lines 164-203): navigation change → `openByRoute`.  Returns the
updated refs and the `openByRoute` arguments if the call fires. -/
def ruleA (inp : SyncInput) (refs : SyncRefs) :
    SyncRefs × Option (String × String × String) :=
  let currentPath := inp.pathname ++ inp.search
  let locationKey := inp.pathname ++ inp.search ++ jsOr inp.locationKey ""
  if refs.isNavigating ∧ refs.lastLocationKey = locationKey then
    ({ refs with isNavigating := false }, none)
  else
    let refs' := { refs with lastLocationKey := locationKey }
    match inp.matched with
    | none => (refs', none)
    | some matchedRoute =>
        let needsUpdate :=
          match getActiveTab inp.tabsState with
          | none => true
          | some tab => tab.id != matchedRoute.id || tab.path != currentPath
        if needsUpdate then
          (refs', some (matchedRoute.id, matchedRoute.title, currentPath))
        else (refs', none)

/-- Rule B (lines 206-226): `activeId` change → navigation.  Returns the
updated refs and the navigation target if a `navigate` call fires.  The
skip guard compares the held-over string with `activeId`
(`"..." === null` is false). -/
def ruleB (inp : SyncInput) (refs : SyncRefs) : SyncRefs × Option String :=
  let skip :=
    match inp.tabsState.activeId with
    | some a => refs.lastActiveId == a
    | none => false
  if skip then (refs, none)
  else
    let refs' := { refs with lastActiveId := jsOr inp.tabsState.activeId "" }
    match getActiveTab inp.tabsState with
    | none => (refs', none)
    | some activeTab =>
        let targetPath := jsOr (getKey inp.tabsState.lastPathMap activeTab.id)
          activeTab.path
        let currentPath := inp.pathname ++ inp.search
        if targetPath ≠ currentPath then
          ({ refs' with isNavigating := true }, some targetPath)
        else (refs', none)

/-- One invocation of the Sync Controller's Rule A followed by Rule B:
the updated refs, the `openByRoute` call (if any) and the navigation
target (if any). -/
def syncStep (inp : SyncInput) (refs : SyncRefs) :
    SyncRefs × Option (String × String × String) × Option String :=
  let (refs1, openCall) := ruleA inp refs
  let (refs2, navCall) := ruleB inp refs1
  (refs2, openCall, navCall)

/-! ### Render Surface capture (`src/src/components/KeepAliveOutlet.tsx`) -/

/-- One event seen by the Render Surface's cache: a render (with the
current outlet subtree and matched route), or an externally requested
cache removal/clear. -/
inductive CacheEvent (α : Type) where
  | render (outlet : Option α) (currentRoute : Option RoutesStore.RouteConfig)
  | removeCache (routeId : String)
  | clearCaches

/-- The capture effect of `KeepAliveOutlet` (lines 31-36):
`if (outlet && currentRoute?.keepAlive && !hasCache(currentRoute.id))
setCaches(currentRoute.id, outlet)`; removal and clear are the context
reducer's `REMOVE_CACHE` / `CLEAR_CACHES` actions. -/
def cacheStep (cache : List (String × α)) : CacheEvent α → List (String × α)
  | .render outlet currentRoute =>
      match outlet, currentRoute with
      | some element, some route =>
          if route.keepAlive.getD false && !(kaHas cache route.id) then
            kaSet cache route.id element
          else cache
      | _, _ => cache
  | .removeCache routeId =>
      if kaHas cache routeId then cache.filter (fun p => p.1 != routeId)
      else cache
  | .clearCaches => []

/-- The cache contents after a sequence of Render Surface events, starting
from the empty cache. -/
def runCache (events : List (CacheEvent α)) : List (String × α) :=
  events.foldl cacheStep []

/-- A single open `dashboard` tab, built through the store operations. -/
def tabsD : TabsState :=
  openByRoute initialState "dashboard" "Dashboard" "/dashboard" true

/-- A Sync Controller input whose location already corresponds to the
active tab (`/dashboard`, no search, matched route = active tab). -/
def syncInputD : SyncInput :=
  { pathname := "/dashboard", search := "", locationKey := some "k1",
    matched := some { id := "dashboard", path := "/dashboard",
                      title := "Dashboard" },
    tabsState := tabsD }

/-- Refs that have already seen `dashboard` as the active id. -/
def syncRefsD : SyncRefs :=
  { isNavigating := false, lastLocationKey := "", lastActiveId := "dashboard" }

/-! ### Helper lemmas: lists -/

theorem mem_of_get? {l : List α} {i : Nat} {x : α} (h : l.get? i = some x) :
    x ∈ l := by
  induction l generalizing i with
  | nil => simp [List.get?] at h
  | cons y ys ih =>
      cases i with
      | zero => simp [List.get?] at h; simp [h]
      | succ j => exact List.mem_cons_of_mem _ (ih h)

theorem get?_lt {l : List α} {i : Nat} (h : i < l.length) :
    ∃ x, l.get? i = some x := by
  induction l generalizing i with
  | nil => simp at h
  | cons y ys ih =>
      cases i with
      | zero => exact ⟨y, rfl⟩
      | succ j => exact ih (Nat.lt_of_succ_lt_succ h)

theorem jsIndex_mem {l : List α} {i : Int} {x : α} (h : jsIndex l i = some x) :
    x ∈ l := by
  unfold jsIndex at h
  split at h
  · exact mem_of_get? h
  · simp at h

theorem findIdxOpt_bound {l : List α} {p : α → Bool} {i : Nat}
    (h : findIdxOpt l p = some i) : i < l.length := by
  induction l generalizing i with
  | nil => simp [findIdxOpt] at h
  | cons y ys ih =>
      by_cases hp : p y
      · simp [findIdxOpt, hp] at h
        subst h
        simp
      · simp [findIdxOpt, hp] at h
        obtain ⟨j, hj, rfl⟩ := h
        exact Nat.succ_lt_succ (ih hj)

theorem findIdxOpt_found {l : List α} {p : α → Bool} {i : Nat}
    (h : findIdxOpt l p = some i) : ∃ x, l.get? i = some x ∧ p x = true := by
  induction l generalizing i with
  | nil => simp [findIdxOpt] at h
  | cons y ys ih =>
      by_cases hp : p y
      · simp [findIdxOpt, hp] at h
        subst h
        exact ⟨y, rfl, hp⟩
      · simp [findIdxOpt, hp] at h
        obtain ⟨j, hj, rfl⟩ := h
        exact ih hj

theorem any_eq_isSome_findIdxOpt (l : List α) (p : α → Bool) :
    l.any p = (findIdxOpt l p).isSome := by
  induction l with
  | nil => simp [findIdxOpt]
  | cons y ys ih =>
      by_cases hp : p y
      · simp [findIdxOpt, hp]
      · simp [findIdxOpt, hp, ih]

theorem pred_false_of_any_false {l : List α} {p : α → Bool}
    (h : l.any p = false) {x : α} (hx : x ∈ l) : p x = false := by
  by_contra hc
  have hx' : p x = true := by revert hc; cases p x <;> simp
  have : l.any p = true := by
    simp [List.any_eq_true]
    exact ⟨x, hx, hx'⟩
  simp [this] at h

theorem filter_not_eq_self {l : List α} {p : α → Bool}
    (h : l.any p = false) : l.filter (fun x => !(p x)) = l := by
  induction l with
  | nil => rfl
  | cons y ys ih =>
      simp at h
      have hy : p y = false := h.1
      have hys : ys.any p = false := by
        simp [List.any_eq_false]
        intro x hx
        simpa using pred_false_of_any_false (by simp [List.any_eq_false]; exact h.2) hx
      simp [List.filter, hy, ih hys]

theorem findIdxOpt_le_filter {l : List α} {p : α → Bool} {i : Nat}
    (h : findIdxOpt l p = some i) :
    i ≤ (l.filter (fun x => !(p x))).length := by
  induction l generalizing i with
  | nil => simp [findIdxOpt] at h
  | cons y ys ih =>
      by_cases hp : p y
      · simp [findIdxOpt, hp] at h
        subst h
        exact Nat.zero_le _
      · simp [findIdxOpt, hp] at h
        obtain ⟨j, hj, rfl⟩ := h
        simp [List.filter, hp]
        exact ih hj

theorem any_of_mem_pred {l : List α} {p : α → Bool} {x : α} (hx : x ∈ l)
    (hp : p x = true) : l.any p = true := by
  simp [List.any_eq_true]
  exact ⟨x, hx, hp⟩

theorem listUpdate_map {l : List α} {f : α → α} {g : α → β}
    (hf : ∀ x, g (f x) = g x) (i : Nat) :
    (listUpdate l i f).map g = l.map g := by
  induction l generalizing i with
  | nil => rfl
  | cons y ys ih =>
      cases i with
      | zero => simp [listUpdate, hf]
      | succ j => simp [listUpdate, ih]

theorem listUpdate_get? (l : List α) (i : Nat) (f : α → α) (j : Nat) :
    (listUpdate l i f).get? j =
      if j = i then (l.get? j).map f else l.get? j := by
  induction l generalizing i j with
  | nil => cases j <;> simp [listUpdate, List.get?]
  | cons y ys ih =>
      cases i with
      | zero =>
          cases j with
          | zero => simp [listUpdate]
          | succ j' => simp [listUpdate]
      | succ i' =>
          cases j with
          | zero => simp [listUpdate]
          | succ j' => simpa [listUpdate] using ih i' j'

theorem mem_listInsertAt {l : List α} {n : Nat} {a x : α} :
    x ∈ listInsertAt l n a ↔ x = a ∨ x ∈ l := by
  induction l generalizing n with
  | nil =>
      cases n <;> simp [listInsertAt]
  | cons y ys ih =>
      cases n with
      | zero => simp [listInsertAt]
      | succ m =>
          simp [listInsertAt, ih]
          tauto

theorem mem_eraseIdx_or {l : List α} {i : Nat} {d y : α}
    (hd : l.get? i = some d) (hy : y ∈ l) : y = d ∨ y ∈ l.eraseIdx i := by
  induction l generalizing i with
  | nil => simp at hy
  | cons z zs ih =>
      cases i with
      | zero =>
          simp [List.get?] at hd
          rcases List.mem_cons.mp hy with h | h
          · left; rw [h, hd]
          · right; simpa [List.eraseIdx] using h
      | succ j =>
          rcases List.mem_cons.mp hy with h | h
          · right; simp [List.eraseIdx, h]
          · rcases ih hd h with h' | h'
            · left; exact h'
            · right; simp [List.eraseIdx, h']

theorem nodup_map_get?_ne {l : List α} {g : α → β} (h : (l.map g).Nodup)
    {i j : Nat} {x y : α} (hx : l.get? i = some x) (hy : l.get? j = some y)
    (hij : i ≠ j) : g x ≠ g y := by
  induction l generalizing i j with
  | nil => simp [List.get?] at hx
  | cons z zs ih =>
      simp [List.nodup_cons] at h
      cases i with
      | zero =>
          cases j with
          | zero => exact absurd rfl hij
          | succ j' =>
              simp [List.get?] at hx
              intro hc
              exact h.1 y (mem_of_get? hy) (by rw [← hc, ← hx])
      | succ i' =>
          cases j with
          | zero =>
              simp [List.get?] at hy
              intro hc
              exact h.1 x (mem_of_get? hx) (by rw [hc, ← hy])
          | succ j' =>
              exact ih h.2 hx hy (fun hc => hij (by rw [hc]))

theorem nodup_map_filter {l : List α} {g : α → β} (h : (l.map g).Nodup)
    (p : α → Bool) : ((l.filter p).map g).Nodup :=
  h.sublist ((l.filter_sublist (p := p)).map g)

theorem filter_length_of_nodup {l : List α} {g : α → String} {r : String}
    (h : (l.map g).Nodup) (ha : l.any (fun x => g x == r) = true) :
    (l.filter (fun x => !(g x == r))).length + 1 = l.length := by
  induction l with
  | nil => simp at ha
  | cons x xs ih =>
      rw [List.map_cons, List.nodup_cons] at h
      by_cases hx : (g x == r) = true
      · have hgr : g x = r := by simpa using hx
        have hxs : xs.any (fun z => g z == r) = false := by
          by_contra hc
          have ht : xs.any (fun z => g z == r) = true := by
            revert hc; cases xs.any (fun z => g z == r) <;> simp
          obtain ⟨z, hz, hzr⟩ := List.any_eq_true.mp ht
          have hzr' : g z = r := by simpa using hzr
          exact h.1 (by rw [hgr, ← hzr']; exact List.mem_map_of_mem g hz)
        have hself := filter_not_eq_self (p := fun z => g z == r) hxs
        simp [List.filter, hx, hself]
      · have hx' : (g x == r) = false := by
          revert hx; cases g x == r <;> simp
        have hxs : xs.any (fun z => g z == r) = true := by
          simp only [List.any_cons, hx', Bool.false_or] at ha
          exact ha
        have hrec := ih h.2 hxs
        simp only [List.filter, hx', Bool.not_false, List.length_cons]
        omega

theorem not_mem_map_of_any_false {l : List α} {g : α → String} {r : String}
    (h : l.any (fun x => g x == r) = false) : r ∉ l.map g := by
  intro hc
  obtain ⟨x, hx, hgr⟩ := List.mem_map.mp hc
  have := pred_false_of_any_false h hx
  simp [hgr] at this

theorem nodup_append_singleton {l : List β} {a : β} (h : l.Nodup)
    (ha : a ∉ l) : (l ++ [a]).Nodup := by
  induction l with
  | nil => simp
  | cons y ys ih =>
      simp [List.nodup_cons] at h ⊢
      refine ⟨⟨?_, ?_⟩, ?_⟩
      · exact h.1
      · intro hc; exact ha (by simp [hc])
      · exact ih h.2 (fun hc => ha (by simp [hc]))

/-! ### Helper lemmas: JS objects -/

theorem kaGet_cons (p : String × α) (c : List (String × α)) (k : String) :
    kaGet (p :: c) k = if p.1 == k then some p.2 else kaGet c k := by
  by_cases h : p.1 == k <;> simp [kaGet, List.find?, h]

theorem kaRemove_eq_filter_not (c : List (String × α)) (k : String) :
    kaRemove c k = c.filter (fun p => !(p.1 == k)) := rfl

theorem kaGet_none_of_any_false {c : List (String × α)} {k : String}
    (h : c.any (fun q => q.1 == k) = false) : kaGet c k = none := by
  induction c with
  | nil => rfl
  | cons q c ih =>
      simp only [List.any_cons, Bool.or_eq_false_iff] at h
      rw [kaGet_cons, if_neg (by simp [h.1])]
      exact ih h.2

theorem kaGet_append_single {c : List (String × α)} {k : String} {v : α}
    (h : c.any (fun q => q.1 == k) = false) : kaGet (c ++ [(k, v)]) k = some v := by
  induction c with
  | nil =>
      rw [List.nil_append, kaGet_cons]
      simp
  | cons q c ih =>
      simp only [List.any_cons, Bool.or_eq_false_iff] at h
      rw [List.cons_append, kaGet_cons, if_neg (by simp [h.1])]
      exact ih h.2

theorem kaGet_map_set_self {c : List (String × α)} {k : String} {v : α}
    (h : c.any (fun q => q.1 == k) = true) :
    kaGet (c.map (fun q => if q.1 == k then (k, v) else q)) k = some v := by
  induction c with
  | nil => simp at h
  | cons q c ih =>
      by_cases hq : (q.1 == k) = true
      · rw [List.map_cons, if_pos hq, kaGet_cons]
        simp
      · have hq' : (q.1 == k) = false := by
          revert hq; cases q.1 == k <;> simp
        have hc : c.any (fun q => q.1 == k) = true := by
          simp only [List.any_cons, hq', Bool.false_or] at h
          exact h
        rw [List.map_cons, if_neg hq, kaGet_cons, if_neg hq]
        exact ih hc

theorem kaGet_kaSet_self (c : List (String × α)) (k : String) (v : α) :
    kaGet (kaSet c k v) k = some v := by
  unfold kaSet
  by_cases hc : (c.any fun q => q.1 == k) = true
  · rw [if_pos hc]
    exact kaGet_map_set_self hc
  · have hcf : (c.any fun q => q.1 == k) = false := by
      revert hc; cases c.any fun q => q.1 == k <;> simp
    rw [if_neg hc]
    exact kaGet_append_single hcf

theorem kaGet_kaRemove_self (c : List (String × α)) (k : String) :
    kaGet (kaRemove c k) k = none := by
  rw [kaRemove_eq_filter_not]
  induction c with
  | nil => rfl
  | cons p c ih =>
      by_cases hp : (p.1 == k) = true
      · rw [List.filter_cons, if_neg (by simp [hp])]
        exact ih
      · have hp' : (p.1 == k) = false := by
          revert hp; cases p.1 == k <;> simp
        rw [List.filter_cons, if_pos (by simp [hp']), kaGet_cons, if_neg (by simp [hp'])]
        exact ih

theorem kaGet_kaRemove_ne (c : List (String × α)) {k k' : String}
    (h : k' ≠ k) : kaGet (kaRemove c k) k' = kaGet c k' := by
  rw [kaRemove_eq_filter_not]
  induction c with
  | nil => rfl
  | cons p c ih =>
      by_cases hp : (p.1 == k) = true
      · have hpk : p.1 = k := by simpa using hp
        have hp' : (p.1 == k') = false := by
          simp [hpk]
          exact fun hc => h hc.symm
        rw [List.filter_cons, if_neg (by simp [hp]), kaGet_cons, if_neg (by simp [hp'])]
        exact ih
      · have hp' : (p.1 == k) = false := by
          revert hp; cases p.1 == k <;> simp
        rw [List.filter_cons, if_pos (by simp [hp']), kaGet_cons, kaGet_cons]
        by_cases hq : (p.1 == k') = true
        · rw [if_pos hq, if_pos hq]
        · rw [if_neg hq, if_neg hq]
          exact ih

theorem kaHas_kaSet {c : List (String × α)} {k id : String} {el : α}
    (h : kaHas (kaSet c k el) id = true) : kaHas c id = true ∨ id = k := by
  unfold kaSet at h
  by_cases hc : (c.any fun q => q.1 == k) = true
  · rw [if_pos hc] at h
    unfold kaHas at h ⊢
    obtain ⟨q, hq, hid⟩ := List.any_eq_true.mp h
    obtain ⟨q0, hq0, rfl⟩ := List.mem_map.mp hq
    by_cases hq0k : (q0.1 == k) = true
    · rw [if_pos hq0k] at hid
      right
      have hk : k = id := by simpa using hid
      exact hk.symm
    · rw [if_neg hq0k] at hid
      left
      exact List.any_eq_true.mpr ⟨q0, hq0, hid⟩
  · rw [if_neg hc] at h
    unfold kaHas at h ⊢
    obtain ⟨q, hq, hid⟩ := List.any_eq_true.mp h
    rcases List.mem_append.mp hq with hmem | hmem
    · left
      exact List.any_eq_true.mpr ⟨q, hmem, hid⟩
    · right
      have hq1 : q = (k, el) := by simpa using hmem
      subst hq1
      have hk : k = id := by simpa using hid
      exact hk.symm

theorem kaHas_filter {c : List (String × α)} {p : String × α → Bool}
    {id : String} (h : kaHas (c.filter p) id = true) : kaHas c id = true := by
  unfold kaHas at h ⊢
  obtain ⟨q, hq, hid⟩ := List.any_eq_true.mp h
  exact List.any_eq_true.mpr ⟨q, (List.mem_filter.mp hq).1, hid⟩

theorem getKey_eq_kaGet (m : StrMap) (k : String) : getKey m k = kaGet m k := rfl

theorem setKey_eq_kaSet (m : StrMap) (k v : String) :
    setKey m k v = kaSet m k v := rfl

theorem delKey_eq_kaRemove (m : StrMap) (k : String) :
    delKey m k = kaRemove m k := rfl

theorem close_eval_active {s : TabsState} {r : String} {i : Nat}
    (hact : s.activeId = some r)
    (hfind : findIdxOpt s.tabs (fun t => t.id == r) = some i) :
    close s r = some
      { tabs := s.tabs.filter (fun t => t.id != r),
        activeId := ((if i < (s.tabs.filter (fun t => t.id != r)).length then
            (s.tabs.filter (fun t => t.id != r)).get? i
          else (s.tabs.filter (fun t => t.id != r)).get?
            ((s.tabs.filter (fun t => t.id != r)).length - 1)).map (·.id)),
        lastPathMap := delKey s.lastPathMap r,
        pendingNavigation := s.pendingNavigation } := by
  unfold close
  rw [hact]
  simp only [jsFindIndex, hfind, jsIndex]
  by_cases hlen : 0 < (s.tabs.filter (fun t => t.id != r)).length
  · by_cases hi : i < (s.tabs.filter (fun t => t.id != r)).length
    · obtain ⟨t, ht⟩ := get?_lt hi
      have hicast : ((i:Int) < ((s.tabs.filter (fun t => t.id != r)).length : Int)) := by
        exact_mod_cast hi
      simp [hicast, ht, hi, hlen]
    · have hicast : ¬ ((i:Int) < ((s.tabs.filter (fun t => t.id != r)).length : Int)) := by
        exact_mod_cast hi
      have h1 : (0:Int) ≤ ((s.tabs.filter (fun t => t.id != r)).length : Int) - 1 := by
        omega
      have h2 : (((s.tabs.filter (fun t => t.id != r)).length : Int) - 1).toNat =
          (s.tabs.filter (fun t => t.id != r)).length - 1 := by
        omega
      obtain ⟨t, ht⟩ := get?_lt (show (s.tabs.filter (fun t => t.id != r)).length - 1 <
        (s.tabs.filter (fun t => t.id != r)).length by omega)
      simp [hicast, h1, h2, ht, hi, hlen]
  · have hR : (s.tabs.filter (fun t => t.id != r)) = [] := by
      have h0 : (s.tabs.filter (fun t => t.id != r)).length = 0 := by omega
      exact List.length_eq_zero.mp h0
    simp [hlen, hR]

theorem close_eval_inactive {s : TabsState} {r : String}
    (hact : s.activeId ≠ some r) :
    close s r = some
      { tabs := s.tabs.filter (fun t => t.id != r),
        activeId := s.activeId,
        lastPathMap := delKey s.lastPathMap r,
        pendingNavigation := s.pendingNavigation } := by
  unfold close
  simp [hact]

theorem hRR_eval_noTab {s : TabsState} {r : String}
    (h : s.tabs.any (fun t => t.id == r) = false) :
    handleRouteRemoved s r = some (s, false) := by
  unfold handleRouteRemoved
  simp [h]

theorem hRR_eval_inactive {s : TabsState} {r : String}
    (hasTab : s.tabs.any (fun t => t.id == r) = true)
    (hact : s.activeId ≠ some r) :
    handleRouteRemoved s r = some
      ({ tabs := s.tabs.filter (fun t => t.id != r),
         activeId := s.activeId,
         lastPathMap := delKey s.lastPathMap r,
         pendingNavigation := s.pendingNavigation }, false) := by
  unfold handleRouteRemoved
  rw [if_pos hasTab, if_neg hact]

theorem hRR_eval_active_empty {s : TabsState} {r : String}
    (hasTab : s.tabs.any (fun t => t.id == r) = true)
    (hact : s.activeId = some r)
    (hR : s.tabs.filter (fun t => t.id != r) = []) :
    handleRouteRemoved s r = some
      ({ tabs := [], activeId := none,
         lastPathMap := delKey s.lastPathMap r,
         pendingNavigation := some "/" }, true) := by
  unfold handleRouteRemoved
  rw [if_pos hasTab, if_pos hact]
  simp [hR]

theorem hRR_eval_active_nonempty {s : TabsState} {r : String} {nt : Tab}
    (hasTab : s.tabs.any (fun t => t.id == r) = true)
    (hact : s.activeId = some r)
    (hR : 0 < (s.tabs.filter (fun t => t.id != r)).length)
    (hnext : nextTabChoice s.tabs (s.tabs.filter (fun t => t.id != r)) r = some nt) :
    handleRouteRemoved s r = some
      ({ tabs := s.tabs.filter (fun t => t.id != r),
         activeId := some nt.id,
         lastPathMap := delKey s.lastPathMap r,
         pendingNavigation := some (jsOr (getKey s.lastPathMap nt.id) nt.path) }, true) := by
  unfold handleRouteRemoved
  rw [if_pos hasTab, if_pos hact, if_pos hR, hnext]

theorem jsFindIndex_eq {l : List α} {p : α → Bool} {i : Nat}
    (h : findIdxOpt l p = some i) : jsFindIndex l p = (i : Int) := by
  unfold jsFindIndex
  rw [h]

theorem nextTabChoice_spec {tabs : List Tab} {r : String} {i : Nat}
    (hfind : findIdxOpt tabs (fun t => t.id == r) = some i) (R : List Tab) :
    (0 < i → nextTabChoice tabs R r = R.get? (i - 1)) ∧
    (i = 0 → 0 < R.length → nextTabChoice tabs R r = R.get? 0) := by
  have hjs : jsFindIndex tabs (fun t => t.id == r) = (i : Int) := jsFindIndex_eq hfind
  constructor
  · intro hi
    have c1 : (0:Int) < (i:Int) := by exact_mod_cast hi
    simp only [nextTabChoice, hjs, if_pos c1, jsIndex]
    rw [if_pos (by omega)]
    congr 1
    omega
  · intro hi h0
    subst hi
    have c1 : ¬ ((0:Int) < ((0:Nat):Int)) := by norm_num
    have c2 : (((0:Nat):Int)) < (R.length : Int) := by exact_mod_cast h0
    simp only [nextTabChoice, hjs, if_neg c1, if_pos c2, jsIndex]
    rw [if_pos (by norm_num)]
    norm_num

theorem get?_of_mem {l : List α} {x : α} (h : x ∈ l) : ∃ n, l.get? n = some x := by
  induction l with
  | nil => simp at h
  | cons y ys ih =>
      rcases List.mem_cons.mp h with h1 | h1
      · exact ⟨0, by simp [h1]⟩
      · obtain ⟨n, hn⟩ := ih h1
        exact ⟨n + 1, hn⟩

theorem openByRoute_activeId (s : TabsState) (r t p : String) (c : Bool) :
    (openByRoute s r t p c).activeId = some r := by
  unfold openByRoute
  cases findIdxOpt s.tabs (fun tab => tab.id == r) <;> rfl

theorem openByRoute_lastPathMap (s : TabsState) (r t p : String) (c : Bool) :
    (openByRoute s r t p c).lastPathMap = setKey s.lastPathMap r p := by
  unfold openByRoute
  cases findIdxOpt s.tabs (fun tab => tab.id == r) <;> rfl

theorem openByRoute_pending (s : TabsState) (r t p : String) (c : Bool) :
    (openByRoute s r t p c).pendingNavigation = s.pendingNavigation := by
  unfold openByRoute
  cases findIdxOpt s.tabs (fun tab => tab.id == r) <;> rfl

theorem openByRoute_ids (s : TabsState) (r t p : String) (c : Bool) :
    (openByRoute s r t p c).tabs.map (·.id) =
      if s.tabs.any (fun tab => tab.id == r) = true then s.tabs.map (·.id)
      else s.tabs.map (·.id) ++ [r] := by
  unfold openByRoute
  cases hfind : findIdxOpt s.tabs (fun tab => tab.id == r) with
  | some i =>
      have hany : s.tabs.any (fun tab => tab.id == r) = true := by
        rw [any_eq_isSome_findIdxOpt, hfind]
        rfl
      rw [if_pos hany]
      simpa using listUpdate_map (l := s.tabs) (g := fun tb : Tab => tb.id)
        (f := fun tab => { tab with path := p, lastPath := p }) (fun x => rfl) i
  | none =>
      have hany : s.tabs.any (fun tab => tab.id == r) = false := by
        rw [any_eq_isSome_findIdxOpt, hfind]
        rfl
      rw [if_neg (by simp [hany])]
      simp

theorem openByRoute_nodup {s : TabsState} (h : (s.tabs.map (·.id)).Nodup)
    (r t p : String) (c : Bool) :
    ((openByRoute s r t p c).tabs.map (·.id)).Nodup := by
  rw [openByRoute_ids]
  by_cases hany : s.tabs.any (fun tab => tab.id == r) = true
  · rw [if_pos hany]
    exact h
  · have hf : s.tabs.any (fun tab => tab.id == r) = false := by
      revert hany; cases s.tabs.any (fun tab => tab.id == r) <;> simp
    rw [if_neg hany]
    exact nodup_append_singleton h (not_mem_map_of_any_false hf)

theorem openSeq_nodup (calls : List OpenArgs) :
    ((openSeq calls initialState).tabs.map (·.id)).Nodup := by
  suffices hgen : ∀ s : TabsState, (s.tabs.map (·.id)).Nodup →
      ((openSeq calls s).tabs.map (·.id)).Nodup by
    exact hgen initialState (by simp [initialState])
  induction calls with
  | nil => intro s h; exact h
  | cons c cs ih =>
      intro s h
      exact ih _ (openByRoute_nodup h _ _ _ _)

theorem openByRoute_tab_fields {s : TabsState} {r : String}
    (hnodup : (s.tabs.map (·.id)).Nodup) (t p : String) (c : Bool) :
    ∀ tab ∈ (openByRoute s r t p c).tabs, tab.id = r →
      tab.path = p ∧ tab.lastPath = p := by
  intro tab htab hid
  unfold openByRoute at htab
  cases hfind : findIdxOpt s.tabs (fun tb => tb.id == r) with
  | some i =>
      rw [hfind] at htab
      simp at htab
      obtain ⟨j, hj⟩ := get?_of_mem htab
      rw [listUpdate_get?] at hj
      by_cases hji : j = i
      · rw [if_pos hji] at hj
        cases hsj : s.tabs.get? j with
        | none => rw [hsj] at hj; simp at hj
        | some orig =>
            rw [hsj] at hj
            simp at hj
            rw [← hj]
            exact ⟨rfl, rfl⟩
      · rw [if_neg hji] at hj
        obtain ⟨x, hx, hpx⟩ := findIdxOpt_found hfind
        have hne : tab.id ≠ x.id := nodup_map_get?_ne hnodup hj hx hji
        have hxid : x.id = r := by simpa using hpx
        exact absurd (by rw [hid, hxid]) hne
  | none =>
      rw [hfind] at htab
      simp at htab
      rcases htab with hmem | heq
      · have hany : s.tabs.any (fun tb => tb.id == r) = false := by
          rw [any_eq_isSome_findIdxOpt, hfind]
          rfl
        have hpf := pred_false_of_any_false hany hmem
        simp [hid] at hpf
      · rw [heq]
        exact ⟨rfl, rfl⟩

theorem openByRoute_has_tab (s : TabsState) (r t p : String) (c : Bool) :
    (openByRoute s r t p c).tabs.any (fun tab => tab.id == r) = true := by
  unfold openByRoute
  cases hfind : findIdxOpt s.tabs (fun tab => tab.id == r) with
  | some i =>
      obtain ⟨x, hx, hpx⟩ := findIdxOpt_found hfind
      have hget : (listUpdate s.tabs i
          (fun tab => { tab with path := p, lastPath := p })).get? i =
          some { x with path := p, lastPath := p } := by
        rw [listUpdate_get?, if_pos rfl, hx]
        rfl
      exact any_of_mem_pred (mem_of_get? hget) (by simpa using hpx)
  | none =>
      have hmem : (Tab.mk r t p p c) ∈ s.tabs ++ [Tab.mk r t p p c] := by simp
      exact any_of_mem_pred hmem (by simp)

/-! ### Claim theorems -/

/-- C1 (counterexample): the claim says `close` prefers the left neighbor,
so that on tabs `[home, dashboard, users]` with active = `dashboard`,
`close("dashboard")` yields `activeId = home`.  The code (lines 111-118)
prefers the tab that slid into the closed slot — the original right
neighbor — so the result is `activeId = users`, refuting the claim at
exactly the scenario input it names. -/
theorem c1_counterexample :
    tabsHDU.tabs.map (·.id) = ["home", "dashboard", "users"] ∧
    tabsHDU.activeId = some "dashboard" ∧
    (close tabsHDU "dashboard").map (fun s => s.tabs.map (·.id)) =
      some ["home", "users"] ∧
    (close tabsHDU "dashboard").map TabsState.activeId = some (some "users") ∧
    some (some "users") ≠ (some (some "home") : Option (Option String)) := by
  decide

/-- C2 (counterexample): the claim says `close` and `handleRouteRemoved`
apply the same tie-break to the same removed active tab.  On tabs
`[home, dashboard, users]` with active = `dashboard`, `close` selects
`users` (right neighbor first) while `handleRouteRemoved` selects `home`
(left neighbor first): the two operations disagree. -/
theorem c2_counterexample :
    (close tabsHDU "dashboard").map TabsState.activeId = some (some "users") ∧
    (handleRouteRemoved tabsHDU "dashboard").map (fun p => p.1.activeId) =
      some (some "home") ∧
    (some (some "users") : Option (Option String)) ≠ some (some "home") := by
  decide

/-- C3 (counterexample): the claim says closing the only open tab sets the
pending-navigation target to `"/"` (and that `close` of an active tab
emits a pending-navigation target at all).  In the code `close` never
writes `pendingNavigation`: closing the only tab sets `activeId` to null
but leaves `pendingNavigation` null. -/
theorem c3_counterexample :
    (close tabsH "home").map TabsState.activeId = some none ∧
    (close tabsH "home").map TabsState.pendingNavigation = some none ∧
    (some (none : Option String)) ≠ some (some "/") := by
  decide

/-- C6 (code bug): `updateTabPath` on an id with no tab.  The claim — and
the store's own boundary-case test — says the whole state is left
unchanged, but the code writes `lastPathMap[routeId] = path`
unconditionally (lines 190-193), so a `nonexistent` entry appears while
the tab list is untouched. -/
theorem c6_updateTabPath_divergence :
    tabsH.tabs.all (fun t => t.id != "nonexistent") = true ∧
    (updateTabPath tabsH "nonexistent" "/new-path").tabs = tabsH.tabs ∧
    getKey tabsH.lastPathMap "nonexistent" = none ∧
    getKey (updateTabPath tabsH "nonexistent" "/new-path").lastPathMap
      "nonexistent" = some "/new-path" := by
  decide

/-- C10 (counterexample): the claim says `close` on an unknown id leaves
the Tab Store unchanged.  In the reachable state `tabsStrayX` (no tab
`"x"`, but a stray `lastPathMap` entry for `"x"` left by the unconditional
`updateTabPath` write), `close("x")` deletes that entry, so the Tab Store
does change. -/
theorem c10_counterexample :
    tabsStrayX.tabs.all (fun t => t.id != "x") = true ∧
    getKey tabsStrayX.lastPathMap "x" = some "/x" ∧
    (close tabsStrayX "x").map (fun s' => getKey s'.lastPathMap "x") =
      some none ∧
    close tabsStrayX "x" ≠ some tabsStrayX := by
  decide

/-- C9: `handleRouteRemoved(routeId)` returns `true` exactly when a tab
with that id exists and it is the current `activeId`; whenever it returns
`false` it leaves `pendingNavigation` untouched (and when no tab exists it
leaves the whole state untouched). -/
theorem c9_handleRouteRemoved_returns (s : TabsState) (r : String)
    (st : TabsState) (b : Bool) (h : handleRouteRemoved s r = some (st, b)) :
    (b = true ↔ (s.tabs.any (fun t => t.id == r) = true ∧ s.activeId = some r)) ∧
    (b = false → st.pendingNavigation = s.pendingNavigation) ∧
    (s.tabs.any (fun t => t.id == r) = false → st = s) := by
  unfold handleRouteRemoved at h
  by_cases hasTab : (s.tabs.any fun tab => tab.id == r) = true
  · rw [if_pos hasTab] at h
    by_cases hact : s.activeId = some r
    · rw [if_pos hact] at h
      by_cases hrem : 0 < (s.tabs.filter fun tab => tab.id != r).length
      · rw [if_pos hrem] at h
        cases hnext : nextTabChoice s.tabs (s.tabs.filter fun tab => tab.id != r) r with
        | none => rw [hnext] at h; exact absurd h (by simp)
        | some nextTab =>
            rw [hnext] at h
            simp at h
            refine ⟨?_, ?_, ?_⟩
            · simp [← h.2, hasTab, hact]
            · intro hb; rw [h.2] at hb; exact absurd hb (by simp)
            · intro hfalse; rw [hfalse] at hasTab; exact absurd hasTab (by simp)
      · rw [if_neg hrem] at h
        simp at h
        refine ⟨?_, ?_, ?_⟩
        · simp [← h.2, hasTab, hact]
        · intro hb; rw [h.2] at hb; exact absurd hb (by simp)
        · intro hfalse; rw [hfalse] at hasTab; exact absurd hasTab (by simp)
    · rw [if_neg hact] at h
      simp at h
      refine ⟨?_, ?_, ?_⟩
      · constructor
        · intro hb; rw [h.2] at hb; exact absurd hb (by simp)
        · intro hc; exact absurd hc.2 hact
      · intro _; rw [← h.1]
      · intro hfalse; rw [hfalse] at hasTab; exact absurd hasTab (by simp)
  · rw [if_neg hasTab] at h
    simp at h
    have hfalse : (s.tabs.any fun tab => tab.id == r) = false := by
      revert hasTab; cases s.tabs.any fun tab => tab.id == r <;> simp
    refine ⟨?_, ?_, ?_⟩
    · constructor
      · intro hb; rw [h.2] at hb; exact absurd hb (by simp)
      · intro hc; rw [hfalse] at hc; exact absurd hc.1 (by simp)
    · intro _; rw [← h.1]
    · intro _; exact h.1.symm

/-- C1 (amended): when the active tab at pre-removal index `i` is closed,
`close` selects the tab of the remaining list `R` at index `i` (the
original right neighbor) whenever `i < |R|`, and only when the closed tab
was last does it fall back to `R[|R|-1]` (the left neighbor); with no tabs
left, `activeId` becomes null.  On `[home, dashboard, users]` with active
= `dashboard`, `close("dashboard")` yields `activeId = users`. -/
theorem c1_close_right_neighbor :
    (∀ (s : TabsState) (r : String) (i : Nat),
      s.activeId = some r →
      findIdxOpt s.tabs (fun t => t.id == r) = some i →
      ∃ s', close s r = some s' ∧
        s'.tabs = s.tabs.filter (fun t => t.id != r) ∧
        s'.lastPathMap = delKey s.lastPathMap r ∧
        (i < (s.tabs.filter (fun t => t.id != r)).length →
          s'.activeId =
            ((s.tabs.filter (fun t => t.id != r)).get? i).map (·.id)) ∧
        ((s.tabs.filter (fun t => t.id != r)).length ≤ i →
          s'.activeId = ((s.tabs.filter (fun t => t.id != r)).get?
            ((s.tabs.filter (fun t => t.id != r)).length - 1)).map (·.id)) ∧
        ((s.tabs.filter (fun t => t.id != r)) = [] → s'.activeId = none)) ∧
    (close tabsHDU "dashboard").map TabsState.activeId = some (some "users") := by
  constructor
  · intro s r i hact hfind
    refine ⟨_, close_eval_active hact hfind, rfl, rfl, ?_, ?_, ?_⟩
    · intro hi
      simp only [if_pos hi]
    · intro hge
      have hnot : ¬ i < (s.tabs.filter (fun t => t.id != r)).length := by omega
      simp only [if_neg hnot]
    · intro hnil
      simp [hnil]
  · decide

/-- C2 (amended): `close` and `handleRouteRemoved` do NOT apply one
tie-break uniformly: on a duplicate-free tab list with the active tab `r`
at index `i`, both operations succeed, and they select the same
replacement exactly when the closed tab was leftmost (`i = 0`) or
rightmost (`i + 1 = |tabs|`); at any interior position `close` picks the
right neighbor while `handleRouteRemoved` picks the left one, and the two
replacements differ. -/
theorem c2_close_vs_handleRouteRemoved (s : TabsState) (r : String) (i : Nat)
    (hnodup : (s.tabs.map (·.id)).Nodup)
    (hact : s.activeId = some r)
    (hfind : findIdxOpt s.tabs (fun t => t.id == r) = some i) :
    ∃ s' t b, close s r = some s' ∧ handleRouteRemoved s r = some (t, b) ∧
      ((i = 0 ∨ i + 1 = s.tabs.length) → s'.activeId = t.activeId) ∧
      (0 < i → i + 1 < s.tabs.length → s'.activeId ≠ t.activeId) := by
  have hany : s.tabs.any (fun t => t.id == r) = true := by
    rw [any_eq_isSome_findIdxOpt, hfind]
    rfl
  have hle : i ≤ (s.tabs.filter (fun t => t.id != r)).length :=
    findIdxOpt_le_filter hfind
  have hlen : (s.tabs.filter (fun t => t.id != r)).length + 1 = s.tabs.length :=
    filter_length_of_nodup hnodup hany
  by_cases hR0 : (s.tabs.filter (fun t => t.id != r)).length = 0
  · have hnil : s.tabs.filter (fun t => t.id != r) = [] :=
      List.length_eq_zero.mp hR0
    refine ⟨_, _, true, close_eval_active hact hfind,
      hRR_eval_active_empty hany hact hnil, ?_, ?_⟩
    · intro _
      simp [hnil]
    · intro hi0 hlt
      omega
  · have hpos : 0 < (s.tabs.filter (fun t => t.id != r)).length :=
      Nat.pos_of_ne_zero hR0
    have spec := nextTabChoice_spec hfind (s.tabs.filter (fun t => t.id != r))
    by_cases hi0 : 0 < i
    · have hnext : nextTabChoice s.tabs (s.tabs.filter (fun t => t.id != r)) r =
          (s.tabs.filter (fun t => t.id != r)).get? (i - 1) := spec.1 hi0
      have hi1lt : i - 1 < (s.tabs.filter (fun t => t.id != r)).length := by
        omega
      obtain ⟨nt, hnt⟩ := get?_lt hi1lt
      refine ⟨_, _, true, close_eval_active hact hfind,
        hRR_eval_active_nonempty hany hact hpos (by rw [hnext, hnt]), ?_, ?_⟩
      · rintro (h0 | hlast)
        · omega
        · have hnot : ¬ i < (s.tabs.filter (fun t => t.id != r)).length := by
            omega
          have heq1 : (s.tabs.filter (fun t => t.id != r)).length - 1 = i - 1 := by
            omega
          simp only [if_neg hnot, heq1, hnt]
          rfl
      · intro _ hlt
        have hiltR : i < (s.tabs.filter (fun t => t.id != r)).length := by omega
        obtain ⟨x, hx⟩ := get?_lt hiltR
        have hRnodup : ((s.tabs.filter (fun t => t.id != r)).map (·.id)).Nodup :=
          nodup_map_filter hnodup _
        have hne : x.id ≠ nt.id := nodup_map_get?_ne hRnodup hx hnt (by omega)
        simp only [if_pos hiltR, hx]
        simp [hne]
    · have hi : i = 0 := by omega
      subst hi
      have hnext : nextTabChoice s.tabs (s.tabs.filter (fun t => t.id != r)) r =
          (s.tabs.filter (fun t => t.id != r)).get? 0 := spec.2 rfl hpos
      obtain ⟨nt, hnt⟩ := get?_lt hpos
      refine ⟨_, _, true, close_eval_active hact hfind,
        hRR_eval_active_nonempty hany hact hpos (by rw [hnext]; exact hnt), ?_, ?_⟩
      · intro _
        simp only [if_pos hpos, hnt]
        rfl
      · intro hi0' _
        omega

theorem close_eval_active_notfound {s : TabsState} {r : String}
    (hact : s.activeId = some r)
    (hfind : findIdxOpt s.tabs (fun t => t.id == r) = none) :
    close s r =
      if s.tabs.filter (fun t => t.id != r) = [] then
        some { tabs := [], activeId := none,
               lastPathMap := delKey s.lastPathMap r,
               pendingNavigation := s.pendingNavigation }
      else none := by
  have hjs : jsFindIndex s.tabs (fun t => t.id == r) = -1 := by
    unfold jsFindIndex
    rw [hfind]
  unfold close
  rw [hact]
  by_cases hnil : s.tabs.filter (fun t => t.id != r) = []
  · simp [hnil]
  · have hpos : 0 < (s.tabs.filter (fun t => t.id != r)).length := by
      cases hc : s.tabs.filter (fun t => t.id != r) with
      | nil => exact absurd hc hnil
      | cons a l => simp [hc]
    have hcast : (-1 : Int) < ((s.tabs.filter (fun t => t.id != r)).length : Int) := by
      omega
    have hneg : ¬ ((0:Int) ≤ -1) := by omega
    simp [hjs, hpos, hcast, jsIndex, hneg, hnil]

/-- C3 (amended): `close` never emits a pending-navigation target — it
leaves `pendingNavigation` exactly as it was (navigation after closing the
active tab is driven by the Sync Controller's Rule B from the `activeId`
change).  It is `handleRouteRemoved` that, when it removes the active tab,
emits `pendingNavigation = lastPathMap[replacementId] || replacement.path`
(JS `||`, empty string falsy), and when the removed active tab was the
only tab, sets `activeId` to null and `pendingNavigation` to `"/"`. -/
theorem c3_pending_navigation :
    (∀ (s : TabsState) (r : String) (s' : TabsState),
      close s r = some s' → s'.pendingNavigation = s.pendingNavigation) ∧
    (∀ (s : TabsState) (r : String) (st : TabsState),
      handleRouteRemoved s r = some (st, true) →
      (∀ nt, nextTabChoice s.tabs (s.tabs.filter (fun t => t.id != r)) r = some nt →
        0 < (s.tabs.filter (fun t => t.id != r)).length →
        st.activeId = some nt.id ∧
        st.pendingNavigation = some (jsOr (getKey s.lastPathMap nt.id) nt.path)) ∧
      ((s.tabs.filter (fun t => t.id != r)) = [] →
        st.activeId = none ∧ st.pendingNavigation = some "/")) := by
  constructor
  · intro s r s' h
    by_cases hact : s.activeId = some r
    · cases hfind : findIdxOpt s.tabs (fun t => t.id == r) with
      | some i =>
          rw [close_eval_active hact hfind] at h
          simp only [Option.some.injEq] at h
          rw [← h]
      | none =>
          rw [close_eval_active_notfound hact hfind] at h
          by_cases hnil : s.tabs.filter (fun t => t.id != r) = []
          · rw [if_pos hnil] at h
            simp only [Option.some.injEq] at h
            rw [← h]
          · rw [if_neg hnil] at h
            exact absurd h (by simp)
    · rw [close_eval_inactive hact] at h
      simp only [Option.some.injEq] at h
      rw [← h]
  · intro s r st h
    by_cases hasTab : s.tabs.any (fun t => t.id == r) = true
    · by_cases hact : s.activeId = some r
      · by_cases hRnil : s.tabs.filter (fun t => t.id != r) = []
        · rw [hRR_eval_active_empty hasTab hact hRnil] at h
          simp only [Option.some.injEq, Prod.mk.injEq] at h
          constructor
          · intro nt hnt hpos
            rw [hRnil] at hpos
            simp at hpos
          · intro _
            rw [← h.1]
            exact ⟨rfl, rfl⟩
        · have hpos : 0 < (s.tabs.filter (fun t => t.id != r)).length := by
            cases hc : (s.tabs.filter (fun t => t.id != r)) with
            | nil => exact absurd hc hRnil
            | cons a l => simp [hc]
          constructor
          · intro nt hnt _
            rw [hRR_eval_active_nonempty hasTab hact hpos hnt] at h
            simp only [Option.some.injEq, Prod.mk.injEq] at h
            rw [← h.1]
            exact ⟨rfl, rfl⟩
          · intro hnil
            exact absurd hnil hRnil
      · rw [hRR_eval_inactive hasTab hact] at h
        simp at h
    · have hf : s.tabs.any (fun t => t.id == r) = false := by
        revert hasTab; cases s.tabs.any (fun t => t.id == r) <;> simp
      rw [hRR_eval_noTab hf] at h
      simp at h

/-- C10 (amended): `close(routeId)` always requests removal of exactly the
Cache Store entry for `routeId` (no other entry changes) — with no
requirement that a tab with that id exists; `handleRouteRemoved` never
modifies the Cache Store; and `close` on an unknown, non-active id leaves
`tabs` and `activeId` unchanged, its only Tab Store effect being the
deletion of a (possibly stray) `lastPathMap` entry for that id. -/
theorem c10_cache_effects :
    (∀ (α : Type) (s : TabsState) (cache : List (String × α)) (r : String)
       (out : TabsState × List (String × α)),
      closeFull s cache r = some out →
        kaGet out.2 r = none ∧ ∀ k, k ≠ r → kaGet out.2 k = kaGet cache k) ∧
    (∀ (α : Type) (s : TabsState) (cache : List (String × α)) (r : String)
       (out : (TabsState × Bool) × List (String × α)),
      handleRouteRemovedFull s cache r = some out → out.2 = cache) ∧
    (∀ (s : TabsState) (r : String),
      s.tabs.any (fun t => t.id == r) = false → s.activeId ≠ some r →
      close s r = some { tabs := s.tabs, activeId := s.activeId,
                         lastPathMap := delKey s.lastPathMap r,
                         pendingNavigation := s.pendingNavigation }) := by
  refine ⟨?_, ?_, ?_⟩
  · intro α s cache r out h
    unfold closeFull at h
    cases hclose : close s r with
    | none => rw [hclose] at h; exact absurd h (by simp)
    | some s1 =>
        rw [hclose] at h
        simp only [Option.map_some', Option.some.injEq] at h
        rw [← h]
        exact ⟨kaGet_kaRemove_self cache r, fun k hk => kaGet_kaRemove_ne cache hk⟩
  · intro α s cache r out h
    unfold handleRouteRemovedFull at h
    cases hh : handleRouteRemoved s r with
    | none => rw [hh] at h; exact absurd h (by simp)
    | some res =>
        rw [hh] at h
        simp only [Option.map_some', Option.some.injEq] at h
        rw [← h]
  · intro s r hany hact
    have hfix : s.tabs.filter (fun t => t.id != r) = s.tabs :=
      filter_not_eq_self hany
    rw [close_eval_inactive hact, hfix]

theorem getKey_setKey_self (m : StrMap) (k v : String) :
    getKey (setKey m k v) k = some v := by
  rw [getKey_eq_kaGet, setKey_eq_kaSet]
  exact kaGet_kaSet_self m k v

/-- C4: after any sequence of `openByRoute` calls from the initial state
followed by `openByRoute(r, t, p, c)`: tab ids stay duplicate-free (so
each routeId occurs at most once), the opened tab is active, a tab with id
`r` exists and its `path`/`lastPath` (and `lastPathMap[r]`) equal the most
recent call's path, and the id sequence is unchanged when the tab existed
(position preserved) or extended by `r` at the end when it did not. -/
theorem c4_openByRoute_upsert (calls : List OpenArgs) (r t p : String) (c : Bool) :
    (((openByRoute (openSeq calls initialState) r t p c).tabs.map (·.id)).Nodup) ∧
    (openByRoute (openSeq calls initialState) r t p c).activeId = some r ∧
    getKey (openByRoute (openSeq calls initialState) r t p c).lastPathMap r =
      some p ∧
    (openByRoute (openSeq calls initialState) r t p c).tabs.any
      (fun tab => tab.id == r) = true ∧
    (∀ tab ∈ (openByRoute (openSeq calls initialState) r t p c).tabs,
      tab.id = r → tab.path = p ∧ tab.lastPath = p) ∧
    ((openByRoute (openSeq calls initialState) r t p c).tabs.map (·.id) =
      if (openSeq calls initialState).tabs.any (fun tab => tab.id == r) = true
      then (openSeq calls initialState).tabs.map (·.id)
      else (openSeq calls initialState).tabs.map (·.id) ++ [r]) := by
  refine ⟨openByRoute_nodup (openSeq_nodup calls) r t p c,
    openByRoute_activeId _ r t p c, ?_,
    openByRoute_has_tab _ r t p c,
    openByRoute_tab_fields (openSeq_nodup calls) t p c,
    openByRoute_ids _ r t p c⟩
  rw [openByRoute_lastPathMap]
  exact getKey_setKey_self _ r p


theorem activeIdOk_iff (s : TabsState) :
    activeIdOk s = true ↔
      (s.activeId = none ∨ ∃ x ∈ s.tabs, s.activeId = some x.id) := by
  unfold activeIdOk
  cases hA : s.activeId with
  | none => simp
  | some a =>
      simp only [List.any_eq_true]
      constructor
      · rintro ⟨x, hx, hxa⟩
        refine Or.inr ⟨x, hx, ?_⟩
        have hxa2 : x.id = a := by simpa using hxa
        rw [hxa2]
      · rintro (hcontra | ⟨x, hx, hxa⟩)
        · exact absurd hcontra (by simp)
        · have hax : a = x.id := by simpa using hxa
          exact ⟨x, hx, by simp [hax]⟩

theorem inv_openByRoute (s : TabsState) (r t p : String) (c : Bool) :
    activeIdOk (openByRoute s r t p c) = true := by
  rw [activeIdOk_iff]
  right
  obtain ⟨x, hx, hpx⟩ := List.any_eq_true.mp (openByRoute_has_tab s r t p c)
  refine ⟨x, hx, ?_⟩
  rw [openByRoute_activeId]
  have hxr : x.id = r := by simpa using hpx
  rw [hxr]

theorem inv_activate {s : TabsState} (h : activeIdOk s = true) (r : String) :
    activeIdOk (activate s r) = true := by
  unfold activate
  cases hf : s.tabs.find? (fun t => t.id == r) with
  | none => exact h
  | some tb =>
      rw [activeIdOk_iff]
      right
      refine ⟨tb, List.mem_of_find?_eq_some hf, ?_⟩
      have htid : tb.id = r := by simpa using List.find?_some hf
      simp [htid]

theorem findIdxOpt_of_any {l : List Tab} {r : String}
    (h : l.any (fun t => t.id == r) = true) :
    ∃ i, findIdxOpt l (fun t => t.id == r) = some i := by
  rw [any_eq_isSome_findIdxOpt] at h
  cases hc : findIdxOpt l (fun t => t.id == r) with
  | none => rw [hc] at h; simp at h
  | some i => exact ⟨i, rfl⟩

theorem inv_close {s s' : TabsState} {r : String}
    (h : activeIdOk s = true) (hc : close s r = some s') :
    activeIdOk s' = true := by
  by_cases hact : s.activeId = some r
  · have hexists : ∃ x ∈ s.tabs, s.activeId = some x.id := by
      rcases (activeIdOk_iff s).mp h with h0 | h1
      · rw [hact] at h0; exact absurd h0 (by simp)
      · exact h1
    obtain ⟨x, hx, hxid⟩ := hexists
    have hxr : x.id = r := by
      rw [hact] at hxid
      simpa using hxid.symm
    have hany : s.tabs.any (fun tb => tb.id == r) = true :=
      any_of_mem_pred hx (by simp [hxr])
    obtain ⟨i, hfind⟩ := findIdxOpt_of_any hany
    rw [close_eval_active hact hfind] at hc
    simp only [Option.some.injEq] at hc
    rw [← hc, activeIdOk_iff]
    by_cases hi : i < (s.tabs.filter (fun t => t.id != r)).length
    · obtain ⟨y, hy⟩ := get?_lt hi
      right
      exact ⟨y, mem_of_get? hy, by simp only [if_pos hi, hy]; rfl⟩
    · by_cases h0 : (s.tabs.filter (fun t => t.id != r)).length = 0
      · left
        have hnil := List.length_eq_zero.mp h0
        simp [hnil]
      · have hpos : 0 < (s.tabs.filter (fun t => t.id != r)).length :=
          Nat.pos_of_ne_zero h0
        obtain ⟨y, hy⟩ := get?_lt
          (show (s.tabs.filter (fun t => t.id != r)).length - 1 <
            (s.tabs.filter (fun t => t.id != r)).length by omega)
        right
        exact ⟨y, mem_of_get? hy, by simp only [if_neg hi, hy]; rfl⟩
  · rw [close_eval_inactive hact] at hc
    simp only [Option.some.injEq] at hc
    rw [← hc]
    rw [activeIdOk_iff] at h ⊢
    rcases h with h0 | ⟨x, hx, hxid⟩
    · left; exact h0
    · right
      refine ⟨x, ?_, hxid⟩
      have hxr : x.id ≠ r := by
        intro hcq
        exact hact (by rw [hxid, hcq])
      exact List.mem_filter.mpr ⟨hx, by simp [hxr]⟩

theorem inv_closeAll (s : TabsState) : activeIdOk (closeAll s) = true := rfl

theorem inv_closeOthers {s : TabsState} (h : activeIdOk s = true) (r : String) :
    activeIdOk (closeOthers s r) = true := by
  unfold closeOthers
  cases hf : s.tabs.find? (fun tab => tab.id == r) with
  | none => exact h
  | some target =>
      rw [activeIdOk_iff]
      right
      refine ⟨target, by simp, ?_⟩
      have htid : target.id = r := by simpa using List.find?_some hf
      simp [htid]

theorem inv_rename {s : TabsState} (h : activeIdOk s = true) (r t : String) :
    activeIdOk (rename s r t) = true := by
  rw [activeIdOk_iff] at h ⊢
  rcases h with h0 | ⟨x, hx, hxid⟩
  · left; exact h0
  · right
    refine ⟨if x.id == r then { x with title := t } else x,
      List.mem_map_of_mem _ hx, ?_⟩
    by_cases hxr : (x.id == r) = true <;> simp [hxr, rename, hxid]

theorem inv_updateTabPath {s : TabsState} (h : activeIdOk s = true)
    (r p : String) : activeIdOk (updateTabPath s r p) = true := by
  rw [activeIdOk_iff] at h ⊢
  rcases h with h0 | ⟨x, hx, hxid⟩
  · left; exact h0
  · right
    refine ⟨if x.id == r then { x with path := p, lastPath := p } else x,
      List.mem_map_of_mem _ hx, ?_⟩
    by_cases hxr : (x.id == r) = true <;> simp [hxr, updateTabPath, hxid]

theorem inv_handleRouteRemoved {s s' : TabsState} {r : String} {b : Bool}
    (h : activeIdOk s = true) (hc : handleRouteRemoved s r = some (s', b)) :
    activeIdOk s' = true := by
  by_cases hasTab : s.tabs.any (fun t => t.id == r) = true
  · by_cases hact : s.activeId = some r
    · by_cases hnil : s.tabs.filter (fun t => t.id != r) = []
      · rw [hRR_eval_active_empty hasTab hact hnil] at hc
        simp only [Option.some.injEq, Prod.mk.injEq] at hc
        rw [← hc.1]
        rfl
      · have hpos : 0 < (s.tabs.filter (fun t => t.id != r)).length := by
          cases hcs : s.tabs.filter (fun t => t.id != r) with
          | nil => exact absurd hcs hnil
          | cons a l => simp [hcs]
        obtain ⟨i, hfind⟩ := findIdxOpt_of_any hasTab
        have spec := nextTabChoice_spec hfind (s.tabs.filter (fun t => t.id != r))
        have hle : i ≤ (s.tabs.filter (fun t => t.id != r)).length :=
          findIdxOpt_le_filter hfind
        by_cases hi : 0 < i
        · obtain ⟨nt, hnt⟩ := get?_lt
            (show i - 1 < (s.tabs.filter (fun t => t.id != r)).length by omega)
          rw [hRR_eval_active_nonempty hasTab hact hpos
            (by rw [spec.1 hi]; exact hnt)] at hc
          simp only [Option.some.injEq, Prod.mk.injEq] at hc
          rw [← hc.1, activeIdOk_iff]
          right
          exact ⟨nt, mem_of_get? hnt, rfl⟩
        · have hi0 : i = 0 := by omega
          obtain ⟨nt, hnt⟩ := get?_lt hpos
          rw [hRR_eval_active_nonempty hasTab hact hpos
            (by rw [spec.2 hi0 hpos]; exact hnt)] at hc
          simp only [Option.some.injEq, Prod.mk.injEq] at hc
          rw [← hc.1, activeIdOk_iff]
          right
          exact ⟨nt, mem_of_get? hnt, rfl⟩
    · rw [hRR_eval_inactive hasTab hact] at hc
      simp only [Option.some.injEq, Prod.mk.injEq] at hc
      rw [← hc.1]
      rw [activeIdOk_iff] at h ⊢
      rcases h with h0 | ⟨x, hx, hxid⟩
      · left; exact h0
      · right
        refine ⟨x, ?_, hxid⟩
        have hxr : x.id ≠ r := by
          intro hcq
          exact hact (by rw [hxid, hcq])
        exact List.mem_filter.mpr ⟨hx, by simp [hxr]⟩
  · have hf : s.tabs.any (fun t => t.id == r) = false := by
      revert hasTab; cases s.tabs.any (fun t => t.id == r) <;> simp
    rw [hRR_eval_noTab hf] at hc
    simp only [Option.some.injEq, Prod.mk.injEq] at hc
    rw [← hc.1]
    exact h

theorem inv_reorderTabs {s s' : TabsState} {f t : Nat}
    (h : activeIdOk s = true) (hc : reorderTabs s f t = some s') :
    activeIdOk s' = true := by
  unfold reorderTabs at hc
  cases hg : s.tabs.get? f with
  | none => rw [hg] at hc; exact absurd hc (by simp)
  | some dragged =>
      rw [hg] at hc
      simp only [Option.some.injEq] at hc
      rw [← hc]
      rw [activeIdOk_iff] at h ⊢
      rcases h with h0 | ⟨x, hx, hxid⟩
      · left; exact h0
      · right
        refine ⟨x, ?_, hxid⟩
        rcases mem_eraseIdx_or hg hx with hxd | hxe
        · exact mem_listInsertAt.mpr (Or.inl hxd)
        · exact mem_listInsertAt.mpr (Or.inr hxe)

/-- C5: in every state reachable from the initial state by any sequence of
Tab Store operations (with in-range reorder indices), `activeId` is either
null or the id of some tab currently in the list. -/
theorem c5_activeId_invariant (s : TabsState) (h : Reachable s) :
    activeIdOk s = true := by
  induction h with
  | init => rfl
  | step h1 hrange happly ih =>
      rename_i s0 s1 op
      cases op with
      | openByRoute r t p c =>
          simp only [applyOp, Option.some.injEq] at happly
          rw [← happly]
          exact inv_openByRoute s0 r t p c
      | activate r =>
          simp only [applyOp, Option.some.injEq] at happly
          rw [← happly]
          exact inv_activate ih r
      | close r =>
          exact inv_close ih happly
      | closeAll =>
          simp only [applyOp, Option.some.injEq] at happly
          rw [← happly]
          exact inv_closeAll s0
      | closeOthers r =>
          simp only [applyOp, Option.some.injEq] at happly
          rw [← happly]
          exact inv_closeOthers ih r
      | rename r t =>
          simp only [applyOp, Option.some.injEq] at happly
          rw [← happly]
          exact inv_rename ih r t
      | updateTabPath r p =>
          simp only [applyOp, Option.some.injEq] at happly
          rw [← happly]
          exact inv_updateTabPath ih r p
      | handleRouteRemoved r =>
          simp only [applyOp] at happly
          cases hh : handleRouteRemoved s0 r with
          | none => rw [hh] at happly; exact absurd happly (by simp)
          | some res =>
              rw [hh] at happly
              simp only [Option.map_some', Option.some.injEq] at happly
              have hc : handleRouteRemoved s0 r = some (s1, res.2) := by
                rw [hh, ← happly]
              exact inv_handleRouteRemoved ih hc
      | reorderTabs f t =>
          exact inv_reorderTabs ih happly


/-- C7: in every cache state produced by a sequence of Render Surface
events starting from the empty cache, each cached id was created by a
render event whose matched route had `keepAlive = true` at that moment —
cache entries for non-keep-alive routes are never created. -/
theorem c7_cache_only_keepalive {α : Type} (events : List (CacheEvent α)) {id : String}
    (h : kaHas (runCache events) id = true) :
    ∃ e ∈ events, ∃ el route, e = CacheEvent.render (some el) (some route) ∧
      route.id = id ∧ route.keepAlive = some true := by
  suffices hgen : ∀ c : List (String × α), kaHas (events.foldl cacheStep c) id = true →
      kaHas c id = true ∨ ∃ e ∈ events, ∃ el route,
        e = CacheEvent.render (some el) (some route) ∧
        route.id = id ∧ route.keepAlive = some true by
    rcases hgen [] h with h0 | h1
    · exact absurd h0 (by simp [kaHas])
    · exact h1
  clear h
  induction events with
  | nil => intro c hc; exact Or.inl hc
  | cons e es ih =>
      intro c hc
      have hstep := ih (cacheStep c e) hc
      rcases hstep with h0 | ⟨e', he', rest⟩
      · cases e with
        | render outlet currentRoute =>
            cases outlet with
            | none => exact Or.inl (by simpa [cacheStep] using h0)
            | some el =>
                cases currentRoute with
                | none => exact Or.inl (by simpa [cacheStep] using h0)
                | some route =>
                    by_cases hcond : (route.keepAlive.getD false &&
                        !(kaHas c route.id)) = true
                    · rw [show cacheStep c (CacheEvent.render (some el)
                          (some route)) = kaSet c route.id el by
                          simp [cacheStep, hcond]] at h0
                      rcases kaHas_kaSet h0 with hold | hnew
                      · exact Or.inl hold
                      · right
                        refine ⟨CacheEvent.render (some el) (some route),
                          by simp, el, route, rfl, hnew.symm, ?_⟩
                        have hka : route.keepAlive.getD false = true := by
                          have hsplit := hcond
                          simp only [Bool.and_eq_true] at hsplit
                          exact hsplit.1
                        cases hkv : route.keepAlive with
                        | none => rw [hkv] at hka; simp at hka
                        | some kb =>
                            rw [hkv] at hka
                            simp at hka
                            rw [hka]
                    · rw [show cacheStep c (CacheEvent.render (some el)
                          (some route)) = c by simp [cacheStep, hcond]] at h0
                      exact Or.inl h0
        | removeCache rid =>
            by_cases hhas : kaHas c rid = true
            · rw [show cacheStep c (CacheEvent.removeCache rid) =
                  c.filter (fun p => p.1 != rid) by simp [cacheStep, hhas]] at h0
              exact Or.inl (kaHas_filter h0)
            · rw [show cacheStep c (CacheEvent.removeCache rid) = c by
                  simp [cacheStep, hhas]] at h0
              exact Or.inl h0
        | clearCaches =>
            exact absurd (by simpa [cacheStep] using h0 :
              kaHas ([] : List (String × α)) id = true) (by simp [kaHas])
      · exact Or.inr ⟨e', by simp [he'], rest⟩


theorem ruleA_lastActiveId (inp : SyncInput) (refs : SyncRefs) :
    (ruleA inp refs).1.lastActiveId = refs.lastActiveId := by
  unfold ruleA
  dsimp only
  repeat' split
  all_goals rfl

theorem ruleA_refs (inp : SyncInput) (refs : SyncRefs) :
    (ruleA inp refs).1 =
      if refs.isNavigating = true ∧ refs.lastLocationKey =
          inp.pathname ++ inp.search ++ jsOr inp.locationKey "" then
        { refs with isNavigating := false }
      else { refs with lastLocationKey :=
        inp.pathname ++ inp.search ++ jsOr inp.locationKey "" } := by
  unfold ruleA
  by_cases h1 : (refs.isNavigating = true ∧ refs.lastLocationKey =
      inp.pathname ++ inp.search ++ jsOr inp.locationKey "")
  · rw [if_pos h1, if_pos h1]
  · rw [if_neg h1, if_neg h1]
    dsimp only
    repeat' split
    all_goals rfl

theorem ruleA_no_open {inp : SyncInput} {route : RouteStore.RouteConfig}
    {tab : Tab}
    (hmatch : inp.matched = some route)
    (hactive : getActiveTab inp.tabsState = some tab)
    (hid : tab.id = route.id)
    (hpath : tab.path = inp.pathname ++ inp.search)
    (refs : SyncRefs) : (ruleA inp refs).2 = none := by
  unfold ruleA
  dsimp only
  by_cases h1 : (refs.isNavigating = true ∧ refs.lastLocationKey =
      inp.pathname ++ inp.search ++ jsOr inp.locationKey "")
  · rw [if_pos h1]
  · rw [if_neg h1, hmatch]
    dsimp only
    rw [hactive]
    dsimp only
    rw [if_neg (by simp [hid, hpath])]

theorem ruleB_skip {inp : SyncInput} {refs : SyncRefs} {a : String}
    (hactId : inp.tabsState.activeId = some a)
    (hseen : refs.lastActiveId = a) :
    ruleB inp refs = (refs, none) := by
  unfold ruleB
  rw [hactId]
  simp [hseen]

theorem syncStep_eval {inp : SyncInput} {route : RouteStore.RouteConfig}
    {tab : Tab} {a : String}
    (hmatch : inp.matched = some route)
    (hactive : getActiveTab inp.tabsState = some tab)
    (hid : tab.id = route.id)
    (hpath : tab.path = inp.pathname ++ inp.search)
    (hactId : inp.tabsState.activeId = some a)
    (refs : SyncRefs) (hseen : refs.lastActiveId = a) :
    syncStep inp refs = ((ruleA inp refs).1, none, none) := by
  have hA2 : (ruleA inp refs).2 = none := ruleA_no_open hmatch hactive hid hpath refs
  have hr1 : (ruleA inp refs).1.lastActiveId = a := by
    rw [ruleA_lastActiveId]
    exact hseen
  have hB : ruleB inp (ruleA inp refs).1 = ((ruleA inp refs).1, none) :=
    ruleB_skip hactId hr1
  show ((ruleB inp (ruleA inp refs).1).1, (ruleA inp refs).2,
    (ruleB inp (ruleA inp refs).1).2) = _
  rw [hA2, hB]

theorem ruleA_twice (inp : SyncInput) (refs : SyncRefs) :
    (ruleA inp (ruleA inp refs).1).1.isNavigating = false ∧
    (ruleA inp (ruleA inp refs).1).1.lastLocationKey =
      inp.pathname ++ inp.search ++ jsOr inp.locationKey "" := by
  by_cases h1 : (refs.isNavigating = true ∧ refs.lastLocationKey =
      inp.pathname ++ inp.search ++ jsOr inp.locationKey "")
  · have e1 : (ruleA inp refs).1 = { refs with isNavigating := false } := by
      rw [ruleA_refs, if_pos h1]
    rw [e1, ruleA_refs]
    rw [if_neg (by simp)]
    exact ⟨rfl, rfl⟩
  · have e1 : (ruleA inp refs).1 =
        { refs with lastLocationKey := inp.pathname ++ inp.search ++ jsOr inp.locationKey "" } := by
      rw [ruleA_refs, if_neg h1]
    rw [e1, ruleA_refs]
    by_cases h2 : refs.isNavigating = true
    · rw [if_pos (⟨h2, rfl⟩ : _ ∧ _)]
      exact ⟨rfl, rfl⟩
    · rw [if_neg (fun hc => h2 hc.1)]
      have hnav : refs.isNavigating = false := by
        revert h2; cases refs.isNavigating <;> simp
      exact ⟨hnav, rfl⟩

theorem ruleA_fixpoint {inp : SyncInput} {refs2 : SyncRefs}
    (h : refs2.isNavigating = false)
    (hk : refs2.lastLocationKey =
      inp.pathname ++ inp.search ++ jsOr inp.locationKey "") :
    (ruleA inp refs2).1 = refs2 := by
  rw [ruleA_refs, if_neg (by simp [h])]
  cases refs2 with
  | mk nav key act =>
      simp at hk
      simp [hk]


/-- C8: the Sync Controller's combined step (Rule A then Rule B) is a
fixed point on unchanged inputs: when the matched route id equals the
active tab's id, the active tab's stored path equals the current
pathname+search, and the previously-seen activeId equals the current one,
the step fires no `openByRoute` call and no navigation — on this and on
every repeated invocation — and by the third invocation the internal refs
no longer change at all. -/
theorem c8_sync_fixed_point (inp : SyncInput) (refs : SyncRefs)
    (route : RouteStore.RouteConfig) (tab : Tab) (a : String)
    (hmatch : inp.matched = some route)
    (hactive : getActiveTab inp.tabsState = some tab)
    (hid : tab.id = route.id)
    (hpath : tab.path = inp.pathname ++ inp.search)
    (hactId : inp.tabsState.activeId = some a)
    (hseen : refs.lastActiveId = a) :
    (syncStep inp refs).2.1 = none ∧ (syncStep inp refs).2.2 = none ∧
    (syncStep inp (syncStep inp refs).1).2.1 = none ∧
    (syncStep inp (syncStep inp refs).1).2.2 = none ∧
    syncStep inp (syncStep inp (syncStep inp refs).1).1 =
      ((syncStep inp (syncStep inp refs).1).1, none, none) := by
  have hs1 := syncStep_eval hmatch hactive hid hpath hactId refs hseen
  have hr1 : (syncStep inp refs).1.lastActiveId = a := by
    rw [hs1]
    exact (ruleA_lastActiveId inp refs).trans hseen
  have hs2 := syncStep_eval hmatch hactive hid hpath hactId
    (syncStep inp refs).1 hr1
  have hr2 : (syncStep inp (syncStep inp refs).1).1.lastActiveId = a := by
    rw [hs2]
    exact (ruleA_lastActiveId inp _).trans hr1
  have hs3 := syncStep_eval hmatch hactive hid hpath hactId
    (syncStep inp (syncStep inp refs).1).1 hr2
  refine ⟨by rw [hs1], by rw [hs1], by rw [hs2], by rw [hs2], ?_⟩
  rw [hs3]
  have hrefs1 : (syncStep inp refs).1 = (ruleA inp refs).1 := by rw [hs1]
  have hrefs2 : (syncStep inp (syncStep inp refs).1).1 =
      (ruleA inp (ruleA inp refs).1).1 := by rw [hs2, hrefs1]
  have htw := ruleA_twice inp refs
  have hfix : (ruleA inp (syncStep inp (syncStep inp refs).1).1).1 =
      (syncStep inp (syncStep inp refs).1).1 := by
    rw [hrefs2]
    exact ruleA_fixpoint htw.1 htw.2
  rw [hfix]


/-- Witness for C1: instantiating the right-neighbor characterisation at
the `[home, dashboard, users]` scenario. -/
theorem c1_close_right_neighbor_witness :
    (close tabsHDU "dashboard").map TabsState.tabs =
      some (tabsHDU.tabs.filter (fun t => t.id != "dashboard")) := by
  obtain ⟨s', hc, htabs, -⟩ :=
    c1_close_right_neighbor.1 tabsHDU "dashboard" 1 (by decide) (by decide)
  rw [hc]
  simp [htabs]

/-- Witness for C2: at the scenario state both operations succeed and
disagree on the replacement (index 1 of 3 is interior). -/
theorem c2_close_vs_handleRouteRemoved_witness :
    ∃ s' t b, close tabsHDU "dashboard" = some s' ∧
      handleRouteRemoved tabsHDU "dashboard" = some (t, b) ∧
      s'.activeId ≠ t.activeId := by
  obtain ⟨s', t, b, hc, hh, -, hne⟩ :=
    c2_close_vs_handleRouteRemoved tabsHDU "dashboard" 1 (by decide) (by decide)
      (by decide)
  exact ⟨s', t, b, hc, hh, hne (by decide) (by decide)⟩

/-- Witness for C3: closing the only tab leaves `pendingNavigation`
untouched, while `handleRouteRemoved` of the only tab emits `"/"`. -/
theorem c3_pending_navigation_witness :
    (TabsState.mk [] none [] none).pendingNavigation =
      tabsH.pendingNavigation ∧
    ((TabsState.mk [] none [] (some "/")).activeId = none ∧
     (TabsState.mk [] none [] (some "/")).pendingNavigation = some "/") := by
  constructor
  · exact c3_pending_navigation.1 tabsH "home" (TabsState.mk [] none [] none)
      (by decide)
  · exact (c3_pending_navigation.2 tabsH "home"
      (TabsState.mk [] none [] (some "/")) (by decide)).2 (by decide)

/-- Witness for C4: a re-open of `home` with a new query string. -/
theorem c4_openByRoute_upsert_witness :
    (openByRoute (openSeq [OpenArgs.mk "home" "Home" "/home" true]
      initialState) "home" "Home" "/home?p=2" true).activeId = some "home" ∧
    getKey (openByRoute (openSeq [OpenArgs.mk "home" "Home" "/home" true]
      initialState) "home" "Home" "/home?p=2" true).lastPathMap "home" =
      some "/home?p=2" := by
  have h := c4_openByRoute_upsert [OpenArgs.mk "home" "Home" "/home" true]
    "home" "Home" "/home?p=2" true
  exact ⟨h.2.1, h.2.2.1⟩

/-- Witness for C5: the invariant holds in the state reached by one
`openByRoute` step from the initial state. -/
theorem c5_activeId_invariant_witness :
    activeIdOk (openByRoute initialState "home" "Home" "/" true) = true :=
  c5_activeId_invariant _
    (@Reachable.step initialState
      (openByRoute initialState "home" "Home" "/" true)
      (TabOp.openByRoute "home" "Home" "/" true)
      Reachable.init (by trivial) rfl)

/-- Witness for C7: a one-event trace that caches `dashboard`. -/
theorem c7_cache_only_keepalive_witness :
    ∃ e ∈ [CacheEvent.render (some (0 : Nat))
        (some (RoutesStore.RouteConfig.mk "dashboard" "/dashboard"
          (some "Dashboard") (some true)))],
      ∃ el route, e = CacheEvent.render (some el) (some route) ∧
        route.id = "dashboard" ∧ route.keepAlive = some true :=
  c7_cache_only_keepalive _ (by decide)

/-- Witness for C8: a concrete input whose location already matches the
active `dashboard` tab fires neither rule. -/
theorem c8_sync_fixed_point_witness :
    (syncStep syncInputD syncRefsD).2.1 = none ∧
    (syncStep syncInputD syncRefsD).2.2 = none := by
  have h := c8_sync_fixed_point syncInputD syncRefsD
    (RouteStore.RouteConfig.mk "dashboard" "/dashboard" "Dashboard")
    (Tab.mk "dashboard" "Dashboard" "/dashboard" "/dashboard" true)
    "dashboard" (by decide) (by decide) (by decide) (by decide) (by decide)
    (by decide)
  exact ⟨h.1, h.2.1⟩

/-- Witness for C9: removing the only (active) tab returns true. -/
theorem c9_handleRouteRemoved_returns_witness :
    true = true ↔ (tabsH.tabs.any (fun t => t.id == "home") = true ∧
      tabsH.activeId = some "home") :=
  (c9_handleRouteRemoved_returns tabsH "home"
    (TabsState.mk [] none [] (some "/")) true (by decide)).1

/-- Witness for C10: closing `home` removes precisely its cache entry, and
closing the unknown id `"x"` leaves tabs and activeId intact. -/
theorem c10_cache_effects_witness :
    kaGet ([] : List (String × Nat)) "home" = none ∧
    close tabsH "x" = some
      { tabs := tabsH.tabs, activeId := tabsH.activeId,
        lastPathMap := delKey tabsH.lastPathMap "x",
        pendingNavigation := tabsH.pendingNavigation } := by
  constructor
  · exact (c10_cache_effects.1 Nat tabsH [("home", (0 : Nat))] "home"
      (TabsState.mk [] none [] none, []) (by decide)).1
  · exact c10_cache_effects.2.2 tabsH "x" (by decide) (by decide)

end TabSystem
